import Mathlib

/-
Verification development for the incremental-update cloud function
(src/src/main.js).  The three update tasks (teacher stats, links cache,
uploader cache) and the dispatching handler are shallowly embedded as
executable Lean functions; event strings are kept as strings and the
string operations the code performs (substring test, split on dots) are
modelled faithfully.
-/

set_option maxRecDepth 4096

namespace IncUpdate

/-- Test whether the pattern list is an initial segment of the other list. -/
def beginsWith : List Char → List Char → Bool
  | _, [] => true
  | [], _ :: _ => false
  | c :: cs, p :: ps => c == p && beginsWith cs ps

/-- Test whether the pattern occurs as a contiguous run inside the list. -/
def occursIn (pat : List Char) : List Char → Bool
  | [] => pat.isEmpty
  | c :: cs => beginsWith (c :: cs) pat || occursIn pat cs

/-- Embedding of the JavaScript expression s.includes(pat). -/
def jsIncludes (s pat : String) : Bool := occursIn pat.toList s.toList

/-- Accumulator-based splitting of a character list at every dot. -/
def splitOnDotAux : List Char → List Char → List (List Char)
  | [], acc => [acc.reverse]
  | c :: cs, acc =>
      if c == '.' then acc.reverse :: splitOnDotAux cs []
      else splitOnDotAux cs (c :: acc)

/-- Embedding of the JavaScript expression s.split(".") with a dot separator. -/
def splitOnDot (s : String) : List String :=
  (splitOnDotAux s.toList []).map List.asString

/-- Truthiness of an optional string field in JavaScript: absent and the
empty string are falsy, every other string is truthy. -/
def jsTruthy : Option String → Bool
  | none => false
  | some s => !(s == "")

/-- Embedding of the JavaScript expression a or-else b on two optional
string fields: the first operand when truthy, otherwise the second. -/
def jsOr (a b : Option String) : Option String := if jsTruthy a then a else b

/-- Code-unit comparison of characters, as JavaScript string comparison uses. -/
def charListLe : List Char → List Char → Bool
  | [], _ => true
  | _ :: _, [] => false
  | a :: as, b :: bs => if a == b then charListLe as bs else decide (a.toNat < b.toNat)

/-- Embedding of the default JavaScript string comparison used by sort(). -/
def strLe (a b : String) : Bool := charListLe a.toList b.toList

/-- Stable insertion into an ascending list, used to model the stable
Array.prototype.sort() with the default string comparator. -/
def insertAsc (x : String) : List String → List String
  | [] => [x]
  | y :: ys => if strLe x y then x :: y :: ys else y :: insertAsc x ys

/-- Stable ascending sort of a list of strings; Array.prototype.sort is
required to be stable since ES2019 (Node 18), so the stable ascending
order is exactly what the code produces. -/
def sortAsc : List String → List String
  | [] => []
  | x :: xs => insertAsc x (sortAsc xs)

/-- Configured identifiers of the three tracked collections, from the
environment variables APPWRITE_NOTE/FORM/YOUTUBE_COLLECTION_ID. -/
structure Config where
  noteId : String
  formId : String
  youtubeId : String
deriving DecidableEq

/-- Relevant fields of the event payload (req.body); absent fields are none. -/
structure EventData where
  userName : Option String
  createdBy : Option String
  abbreviation : Option String
deriving DecidableEq

/-- Entry of the stats document: per-user counters.  JavaScript numbers on
integer values are exact here, so the counters are embedded as integers. -/
structure StatsEntry where
  name : String
  notes : Int
  forms : Int
  youtube : Int
  total : Int
deriving DecidableEq

/-- Runtime type errors raised by the JavaScript code. -/
inductive JsError where
  | typeError : String → JsError
deriving DecidableEq

instance decEqExcept {ε α : Type} [DecidableEq ε] [DecidableEq α] : DecidableEq (Except ε α) := fun a b =>
  match a, b with
  | .ok x, .ok y => decidable_of_iff (x = y) (by simp)
  | .error x, .error y => decidable_of_iff (x = y) (by simp)
  | .ok _, .error _ => isFalse (by simp)
  | .error _, .ok _ => isFalse (by simp)

/-- Result of JSON.parse(document.data or-else "{}") viewed through the
stats task: absent or empty data parses to the empty object, which is not
an array; otherwise the stored array round-trips. -/
inductive ParsedStats where
  | emptyObj : ParsedStats
  | arr : List StatsEntry → ParsedStats
deriving DecidableEq

/-- Embedding of getAndParseJSON specialized to the stats document.  The
stored payload is none when the data field is absent or empty (falsy), in
which case JSON.parse is applied to the literal "{}" and yields the empty
object; otherwise the serialized array parses back to itself. -/
def getAndParseStats (payload : Option (List StatsEntry)) : ParsedStats :=
  match payload with
  | none => .emptyObj
  | some l => .arr l

/-- Outcome of one run of the teacher stats task: an early return before
any store access, or a write of the new stats array. -/
inductive StatsOutcome where
  | skipped : StatsOutcome
  | wrote : List StatsEntry → StatsOutcome
deriving DecidableEq

/-- Stable insertion into a list descending by total, used to model the
stable Array.prototype.sort with comparator (a, b) => b.total - a.total. -/
def insertDesc (x : StatsEntry) : List StatsEntry → List StatsEntry
  | [] => [x]
  | y :: ys => if y.total ≤ x.total then x :: y :: ys else y :: insertDesc x ys

/-- Stable descending-by-total sort of the stats array; Array.prototype.sort
is stable (ES2019), so the stable descending order is exactly the result
of statsData.sort((a, b) => b.total - a.total). -/
def sortDesc : List StatsEntry → List StatsEntry
  | [] => []
  | x :: xs => insertDesc x (sortDesc xs)

/-- Fresh entry pushed for a user not yet present in the stats array. -/
def zeroEntry (name : String) : StatsEntry :=
  { name := name, notes := 0, forms := 0, youtube := 0, total := 0 }

/-- Embedding of the find-or-push step: statsData.find(u => u.name === userName)
followed by pushing a fresh entry when the search fails. -/
def findOrAppend (u : String) (l : List StatsEntry) : List StatsEntry :=
  if l.any (fun e => e.name == u) then l else l ++ [zeroEntry u]

/-- Apply a function to the first entry satisfying the predicate, leaving
the rest unchanged; this is how mutation through the reference returned by
Array.prototype.find acts on the array. -/
def updateFirst (p : StatsEntry → Bool) (f : StatsEntry → StatsEntry) : List StatsEntry → List StatsEntry
  | [] => []
  | e :: es => if p e then f e :: es else e :: updateFirst p f es

/-- Clamping of all four counters to a minimum of zero (source lines 43 to 46). -/
def clampNonneg (e : StatsEntry) : StatsEntry :=
  { e with notes := max 0 e.notes, forms := max 0 e.forms,
           youtube := max 0 e.youtube, total := max 0 e.total }

/-- Embedding of the increment chosen on source line 35:
plus one when the event string contains ".create", else minus one. -/
def jsDelta (event : String) : Int := if jsIncludes event ".create" then 1 else -1

/-- Per-entry mutation of the teacher stats task (source lines 37 to 46):
category counters bumped on exact collection-id match, total bumped
unconditionally, then every counter clamped at zero. -/
def applyDelta (cfg : Config) (collectionId : Option String) (increment : Int) (u : StatsEntry) : StatsEntry :=
  let u1 := if collectionId = some cfg.noteId then { u with notes := u.notes + increment } else u
  let u2 := if collectionId = some cfg.formId then { u1 with forms := u1.forms + increment } else u1
  let u3 := if collectionId = some cfg.youtubeId then { u2 with youtube := u2.youtube + increment } else u2
  clampNonneg { u3 with total := u3.total + increment }

/-- Stats array as it stands just before the sort on source line 48. -/
def statsPreSort (cfg : Config) (event : String) (u : String) (statsData : List StatsEntry) : List StatsEntry :=
  updateFirst (fun e => e.name == u)
    (applyDelta cfg ((splitOnDot event)[3]?) (jsDelta event))
    (findOrAppend u statsData)

/-- Embedding of updateTeacherStats (source lines 10 to 55).  The payload is
the stored stats document data: none when absent or empty. -/
def updateTeacherStats (cfg : Config) (event : String) (ed : EventData) (payload : Option (List StatsEntry)) : Except JsError StatsOutcome :=
  if !(jsIncludes event ".create" || jsIncludes event ".delete") then .ok .skipped
  else
    let userName := jsOr ed.userName ed.createdBy
    if !(jsTruthy userName) then .ok .skipped
    else
      match getAndParseStats payload with
      | .emptyObj => .error (.typeError "statsData.find is not a function")
      | .arr statsData =>
          .ok (.wrote (sortDesc (statsPreSort cfg event (userName.getD "") statsData)))

/-- Outcome of one run of the links cache task. -/
inductive LinksOutcome where
  | skipped : LinksOutcome
  | noWrite : LinksOutcome
  | wrote : List String → LinksOutcome
deriving DecidableEq

/-- Embedding of updateLinksCache (source lines 59 to 89).  The payload is
the uploaders array of the stored cache document, none when the data field
is absent or empty or lacks the uploaders key. -/
def updateLinksCache (event : String) (ed : EventData) (payload : Option (List String)) : LinksOutcome :=
  if !(jsIncludes event ".create") then .skipped
  else if !(jsTruthy ed.createdBy) then .skipped
  else
    let uploaders := payload.getD []
    let uploaderName := ed.createdBy.getD ""
    if uploaders.contains uploaderName then .noWrite
    else .wrote (sortAsc (uploaders ++ [uploaderName]))

/-- Open mapping from category key to name list, as stored in the uploader
cache document; JavaScript object keys are unique, modelled as an
association list updated in place. -/
abbrev UploaderCache : Type := List (String × List String)

/-- Read of a dynamic object property. -/
def objGet (m : UploaderCache) (k : String) : Option (List String) :=
  (m.find? (fun p => p.1 == k)).map (fun p => p.2)

/-- Assignment of a dynamic object property: replace the first binding of
the key, or append a fresh binding. -/
def objSet : UploaderCache → String → List String → UploaderCache
  | [], k, v => [(k, v)]
  | p :: ps, k, v => if p.1 == k then (k, v) :: ps else p :: objSet ps k v

/-- Embedding of cacheData[k] = cacheData[k] or-else []: create the key with
an empty array when it is missing (source lines 119 to 120). -/
def ensureKey (m : UploaderCache) (k : String) : UploaderCache :=
  match objGet m k with
  | some _ => m
  | none => objSet m k []

/-- Embedding of the conditional insert on source lines 122 to 131: push the
name into the sequence at the key unless already present, re-sort, and
report whether anything changed. -/
def cacheInsert (m : UploaderCache) (k uploaderName : String) : UploaderCache × Bool :=
  let l := (objGet m k).getD []
  if l.contains uploaderName then (m, false)
  else (objSet m k (sortAsc (l ++ [uploaderName])), true)

/-- Body of the uploader cache task after the guards: ensure the two keys,
insert into the global sequence then into the category sequence, and
report whether any insertion happened.  Reading the map again between the
two inserts models the aliasing of cacheData.all and cacheData[abbreviation]
when the abbreviation is the string "all". -/
def uploaderProcess (m : UploaderCache) (userName abbreviation : String) : UploaderCache × Bool :=
  let m1 := ensureKey m "all"
  let m2 := ensureKey m1 abbreviation
  let s1 := cacheInsert m2 "all" userName
  let s2 := cacheInsert s1.1 abbreviation userName
  (s2.1, s1.2 || s2.2)

/-- Outcome of one run of the uploader cache task. -/
inductive UploaderOutcome where
  | skipped : UploaderOutcome
  | noWrite : UploaderCache → UploaderOutcome
  | wrote : UploaderCache → UploaderOutcome
deriving DecidableEq

/-- Embedding of updateUploaderCache (source lines 93 to 142).  The payload
is the stored cache mapping, none when the data field is absent or empty. -/
def updateUploaderCache (cfg : Config) (event : String) (ed : EventData) (payload : Option UploaderCache) : UploaderOutcome :=
  if !(jsIncludes event ("collections." ++ cfg.noteId)) then .skipped
  else if !(jsIncludes event ".create") then .skipped
  else if !(jsTruthy ed.userName && jsTruthy ed.abbreviation) then .skipped
  else
    let userName := ed.userName.getD ""
    let abbreviation := ed.abbreviation.getD ""
    let cacheData := payload.getD []
    let r := uploaderProcess cacheData userName abbreviation
    if r.2 then .wrote r.1 else .noWrite r.1

/-- Response object produced through res.json; the status is 200 unless
given explicitly. -/
structure JsResponse where
  success : Bool
  message : Option String
  errorMsg : Option String
  status : Nat
deriving DecidableEq

/-- Outcome of one settled promise, as reported by Promise.allSettled. -/
inductive SettledResult where
  | fulfilled : SettledResult
  | rejected : String → SettledResult
deriving DecidableEq

/-- Embedding of Promise.allSettled: every task settles, and the combined
promise always fulfills with the list of per-task outcomes. -/
def allSettled (tasks : List (Except String Unit)) : List SettledResult :=
  tasks.map (fun t => match t with | .ok _ => .fulfilled | .error e => .rejected e)

/-- Embedding of the try block of the handler (source lines 157 to 174): the
task outcomes are collected with allSettled, rejections are only logged,
and the success response is returned. -/
def dispatchBody (tasks : List (Except String Unit)) : Except String JsResponse :=
  let results := allSettled tasks
  let _ := results
  .ok { success := true, message := some "Incremental updates processed.",
        errorMsg := none, status := 200 }

/-- Embedding of the try-catch around the dispatch body (source lines 157
to 178): an exception raised inside the try block is turned into the
failure response with status 500. -/
def tryCatch (body : Except String JsResponse) : JsResponse :=
  match body with
  | .ok r => r
  | .error e => { success := false, message := none, errorMsg := some e, status := 500 }

/-- Embedding of the exported handler (source lines 146 to 179).  Client
construction (lines 147 to 151) happens before the try block, so a failure
there propagates out of the handler; afterwards the try-catch wraps the
dispatch body. -/
def handler (clientInit : Except String Unit) (tasks : List (Except String Unit)) : Except String JsResponse :=
  match clientInit with
  | .error e => .error e
  | .ok _ => .ok (tryCatch (dispatchBody tasks))

/-- Concrete configuration used for the event-sequence theorems: the three
tracked collection identifiers. -/
def cfg0 : Config := { noteId := "notes", formId := "forms", youtubeId := "youtube" }

/-- Tracked collection of an event in an event sequence. -/
inductive Track where
  | notes : Track
  | forms : Track
  | youtube : Track
deriving DecidableEq

/-- Operation of an event in an event sequence. -/
inductive EvOp where
  | create : EvOp
  | delete : EvOp
deriving DecidableEq

/-- Collection identifier of a tracked collection under cfg0. -/
def trackId : Track → String
  | .notes => "notes"
  | .forms => "forms"
  | .youtube => "youtube"

/-- Operation segment of the event string. -/
def opName : EvOp → String
  | .create => "create"
  | .delete => "delete"

/-- Contribution of one operation to a counter: plus one for a create,
minus one for a delete. -/
def opDelta : EvOp → Int
  | .create => 1
  | .delete => -1

/-- Event string delivered for one create or delete on a tracked collection. -/
def mkEvent (e : Track × EvOp) : String :=
  "databases.main.collections." ++ trackId e.1 ++ ".documents." ++ opName e.2

/-- Payload attributing an event to the given user. -/
def edFor (u : String) : EventData :=
  { userName := some u, createdBy := none, abbreviation := none }

/-- One run of the teacher stats task over the current stats document: a
skip leaves the document unchanged, a write replaces it. -/
def stepStats (u : String) (e : Track × EvOp) (doc : List StatsEntry) : Except JsError (List StatsEntry) :=
  match updateTeacherStats cfg0 (mkEvent e) (edFor u) (some doc) with
  | .ok .skipped => .ok doc
  | .ok (.wrote d) => .ok d
  | .error err => .error err

/-- Run of the teacher stats task over a whole event sequence, each write
becoming the next read. -/
def runStats (u : String) : List (Track × EvOp) → List StatsEntry → Except JsError (List StatsEntry)
  | [], doc => .ok doc
  | e :: es, doc =>
      match stepStats u e doc with
      | .ok d => runStats u es d
      | .error err => .error err

/-- Signed number of events of the sequence touching the given category:
creates minus deletes restricted to that collection. -/
def catDelta (c : Track) : List (Track × EvOp) → Int
  | [] => 0
  | e :: es => (if e.1 = c then opDelta e.2 else 0) + catDelta c es

/-- Number of create events in the sequence. -/
def createCount : List (Track × EvOp) → Nat
  | [] => 0
  | e :: es => (if e.2 = .create then 1 else 0) + createCount es

/-- Number of delete events in the sequence. -/
def deleteCount : List (Track × EvOp) → Nat
  | [] => 0
  | e :: es => (if e.2 = .delete then 1 else 0) + deleteCount es

/-- Descending order by total between consecutive entries: the sorted shape
the stats document is claimed to keep. -/
def SortedDesc (l : List StatsEntry) : Prop :=
  List.Pairwise (fun a b => b.total ≤ a.total) l

/-- Nonnegativity of all four counters of one stats entry. -/
def EntryNonneg (e : StatsEntry) : Prop :=
  0 ≤ e.notes ∧ 0 ≤ e.forms ∧ 0 ≤ e.youtube ∧ 0 ≤ e.total

/-- Stats document after one run of the teacher stats task: the written
array on a write, the unchanged document otherwise. -/
def statsAfter (cfg : Config) (event : String) (ed : EventData) (doc : List StatsEntry) : List StatsEntry :=
  match updateTeacherStats cfg event ed (some doc) with
  | .ok (.wrote d) => d
  | _ => doc

theorem mem_insertDesc {x y : StatsEntry} {l : List StatsEntry} :
    y ∈ insertDesc x l ↔ y = x ∨ y ∈ l := by
  induction l with
  | nil => simp [insertDesc]
  | cons z zs ih =>
      by_cases h : z.total ≤ x.total
      · simp [insertDesc, h]
      · simp [insertDesc, h, ih]
        tauto

theorem mem_sortDesc {y : StatsEntry} {l : List StatsEntry} :
    y ∈ sortDesc l ↔ y ∈ l := by
  induction l with
  | nil => simp [sortDesc]
  | cons x xs ih => simp [sortDesc, mem_insertDesc, ih]

theorem sortedDesc_insertDesc (x : StatsEntry) {l : List StatsEntry}
    (h : SortedDesc l) : SortedDesc (insertDesc x l) := by
  induction l with
  | nil => simp [insertDesc, SortedDesc]
  | cons y ys ih =>
      rcases h with _ | ⟨hy, hys⟩
      by_cases hc : y.total ≤ x.total
      · rw [insertDesc, if_pos hc]
        refine List.Pairwise.cons ?_ (List.Pairwise.cons hy hys)
        intro z hz
        rcases List.mem_cons.mp hz with rfl | hz
        · exact hc
        · exact le_trans (hy z hz) hc
      · rw [insertDesc, if_neg hc]
        refine List.Pairwise.cons ?_ (ih hys)
        intro z hz
        rcases mem_insertDesc.mp hz with rfl | hz
        · exact le_of_not_le hc
        · exact hy z hz

theorem sortedDesc_sortDesc (l : List StatsEntry) : SortedDesc (sortDesc l) := by
  induction l with
  | nil => exact List.Pairwise.nil
  | cons x xs ih => exact sortedDesc_insertDesc x ih

theorem filter_insertDesc_of_ne {x : StatsEntry} {t : Int} (l : List StatsEntry)
    (hx : x.total ≠ t) :
    (insertDesc x l).filter (fun e => e.total == t) = l.filter (fun e => e.total == t) := by
  induction l with
  | nil => simp [insertDesc, hx]
  | cons y ys ih =>
      by_cases h : y.total ≤ x.total
      · rw [insertDesc, if_pos h]
        simp [hx]
      · rw [insertDesc, if_neg h]
        by_cases hy : y.total = t <;> simp [hy, ih]

theorem filter_insertDesc_of_eq {x : StatsEntry} {t : Int} (l : List StatsEntry)
    (hx : x.total = t) :
    (insertDesc x l).filter (fun e => e.total == t) = x :: l.filter (fun e => e.total == t) := by
  induction l with
  | nil => simp [insertDesc, hx]
  | cons y ys ih =>
      by_cases h : y.total ≤ x.total
      · rw [insertDesc, if_pos h]
        simp [hx]
      · have hy : ¬ y.total = t := by
          intro he
          exact h (by rw [he, ← hx])
        rw [insertDesc, if_neg h]
        simp [hy, ih]

theorem filter_sortDesc (t : Int) (l : List StatsEntry) :
    (sortDesc l).filter (fun e => e.total == t) = l.filter (fun e => e.total == t) := by
  induction l with
  | nil => rfl
  | cons x xs ih =>
      by_cases hx : x.total = t
      · rw [sortDesc, filter_insertDesc_of_eq _ hx, ih]
        simp [hx]
      · rw [sortDesc, filter_insertDesc_of_ne _ hx, ih]
        simp [hx]

theorem mem_insertAsc {x y : String} {l : List String} :
    y ∈ insertAsc x l ↔ y = x ∨ y ∈ l := by
  induction l with
  | nil => simp [insertAsc]
  | cons z zs ih =>
      by_cases h : strLe x z = true
      · simp [insertAsc, h]
      · simp [insertAsc, h, ih]
        tauto

theorem mem_sortAsc {y : String} {l : List String} :
    y ∈ sortAsc l ↔ y ∈ l := by
  induction l with
  | nil => simp [sortAsc]
  | cons x xs ih => simp [sortAsc, mem_insertAsc, ih]

theorem mem_updateFirst {p : StatsEntry → Bool} {f : StatsEntry → StatsEntry}
    {l : List StatsEntry} {y : StatsEntry} (h : y ∈ updateFirst p f l) :
    y ∈ l ∨ ∃ x, x ∈ l ∧ p x = true ∧ y = f x := by
  induction l with
  | nil => simp [updateFirst] at h
  | cons e es ih =>
      by_cases hp : p e = true
      · rw [updateFirst, if_pos hp] at h
        rcases List.mem_cons.mp h with rfl | h
        · exact Or.inr ⟨e, List.mem_cons_self e es, hp, rfl⟩
        · exact Or.inl (List.mem_cons_of_mem e h)
      · rw [updateFirst, if_neg hp] at h
        rcases List.mem_cons.mp h with rfl | h
        · exact Or.inl (List.mem_cons_self y es)
        · rcases ih h with h | ⟨x, hx, hpx, hy⟩
          · exact Or.inl (List.mem_cons_of_mem e h)
          · exact Or.inr ⟨x, List.mem_cons_of_mem e hx, hpx, hy⟩

theorem updateFirst_congr {p : StatsEntry → Bool} {f g : StatsEntry → StatsEntry}
    (l : List StatsEntry) (h : ∀ x ∈ l, p x = true → f x = g x) :
    updateFirst p f l = updateFirst p g l := by
  induction l with
  | nil => rfl
  | cons e es ih =>
      by_cases hp : p e = true
      · rw [updateFirst, updateFirst, if_pos hp, if_pos hp,
            h e (List.mem_cons_self e es) hp]
      · rw [updateFirst, updateFirst, if_neg hp, if_neg hp,
            ih (fun x hx => h x (List.mem_cons_of_mem e hx))]

theorem mem_findOrAppend {u : String} {l : List StatsEntry} {y : StatsEntry}
    (h : y ∈ findOrAppend u l) : y ∈ l ∨ y = zeroEntry u := by
  unfold findOrAppend at h
  split at h
  · exact Or.inl h
  · rcases List.mem_append.mp h with h | h
    · exact Or.inl h
    · exact Or.inr (List.mem_singleton.mp h)

theorem clampNonneg_entryNonneg (e : StatsEntry) : EntryNonneg (clampNonneg e) := by
  refine ⟨le_max_left 0 _, le_max_left 0 _, le_max_left 0 _, le_max_left 0 _⟩

theorem applyDelta_entryNonneg (cfg : Config) (col : Option String) (inc : Int)
    (e : StatsEntry) : EntryNonneg (applyDelta cfg col inc e) :=
  clampNonneg_entryNonneg _

theorem updateTeacherStats_wrote {cfg : Config} {event : String} {ed : EventData}
    {payload : Option (List StatsEntry)} {d : List StatsEntry}
    (h : updateTeacherStats cfg event ed payload = .ok (.wrote d)) :
    ∃ statsData, payload = some statsData ∧
      d = sortDesc (statsPreSort cfg event ((jsOr ed.userName ed.createdBy).getD "") statsData) := by
  unfold updateTeacherStats at h
  split at h
  · simp at h
  · dsimp only at h
    split at h
    · simp at h
    · cases payload with
      | none => simp [getAndParseStats] at h
      | some l =>
          simp only [getAndParseStats, Except.ok.injEq, StatsOutcome.wrote.injEq] at h
          exact ⟨l, rfl, h.symm⟩

theorem zeroEntry_entryNonneg (u : String) : EntryNonneg (zeroEntry u) := by
  refine ⟨le_refl 0, le_refl 0, le_refl 0, le_refl 0⟩

/-- C7: the predicate that every counter of every stats entry is nonnegative
is an invariant of one teacher stats step, for every event: when it holds
of the stored document before the step it holds of the document after,
whether the step writes or skips. -/
theorem c7_nonneg_invariant (cfg : Config) (event : String) (ed : EventData)
    (doc : List StatsEntry) (h : ∀ e ∈ doc, EntryNonneg e) :
    ∀ e ∈ statsAfter cfg event ed doc, EntryNonneg e := by
  intro e he
  unfold statsAfter at he
  split at he
  case h_1 d hd =>
      obtain ⟨statsData, hsome, hsorted⟩ := updateTeacherStats_wrote hd
      injection hsome with hsome
      subst hsome
      subst hsorted
      have hmem : e ∈ statsPreSort cfg event ((jsOr ed.userName ed.createdBy).getD "") doc :=
        mem_sortDesc.mp he
      unfold statsPreSort at hmem
      rcases mem_updateFirst hmem with hmem | ⟨x, _, _, rfl⟩
      · rcases mem_findOrAppend hmem with hmem | rfl
        · exact h e hmem
        · exact zeroEntry_entryNonneg _
      · exact applyDelta_entryNonneg _ _ _ _
  case h_2 => exact h e he

/-- Witness for C7 at a concrete input: empty document, create event on the
notes collection; the written entry for A is nonnegative in all counters. -/
theorem c7_nonneg_invariant_witness :
    EntryNonneg { name := "A", notes := 1, forms := 0, youtube := 0, total := 1 } :=
  c7_nonneg_invariant cfg0 "databases.main.collections.notes.documents.create"
    (edFor "A") [] (by simp)
    { name := "A", notes := 1, forms := 0, youtube := 0, total := 1 } (by decide)

/-- C8: after every successful teacher stats write the written array is
sorted descending by total, and entries of equal total keep their relative
order from the array as it stood just before the sort (stability). -/
theorem c8_sorted_stable (cfg : Config) (event : String) (ed : EventData)
    (payload : Option (List StatsEntry)) (d : List StatsEntry)
    (h : updateTeacherStats cfg event ed payload = .ok (.wrote d)) :
    SortedDesc d ∧ ∃ statsData, payload = some statsData ∧
      ∀ t : Int, d.filter (fun e => e.total == t)
        = (statsPreSort cfg event ((jsOr ed.userName ed.createdBy).getD "") statsData).filter
            (fun e => e.total == t) := by
  obtain ⟨statsData, hsome, hd⟩ := updateTeacherStats_wrote h
  subst hd
  exact ⟨sortedDesc_sortDesc _, statsData, hsome, fun t => filter_sortDesc t _⟩

/-- Witness for C8 at a concrete input: create event on the notes
collection written over the empty stats array. -/
theorem c8_sorted_stable_witness :
    SortedDesc [{ name := "A", notes := 1, forms := 0, youtube := 0, total := 1 }] ∧
      ∃ statsData, (some [] : Option (List StatsEntry)) = some statsData ∧
        ∀ t : Int,
          List.filter (fun e => e.total == t)
              [{ name := "A", notes := 1, forms := 0, youtube := 0, total := 1 }]
            = (statsPreSort cfg0 "databases.main.collections.notes.documents.create"
                ((jsOr (edFor "A").userName (edFor "A").createdBy).getD "") statsData).filter
                (fun e => e.total == t) :=
  c8_sorted_stable cfg0 "databases.main.collections.notes.documents.create" (edFor "A")
    (some []) [{ name := "A", notes := 1, forms := 0, youtube := 0, total := 1 }] (by decide)

/-- C2: at the failing input the code diverges from the claim.  An absent or
empty stats payload parses to the empty JSON object (never to the empty
array), and the teacher stats task then raises a TypeError because the
parsed object has no find method, instead of proceeding with an empty
stats list. -/
theorem c2_empty_stats_payload_fails :
    getAndParseStats none = .emptyObj ∧
      updateTeacherStats cfg0 "databases.main.collections.notes.documents.create"
          (edFor "A") none
        = .error (.typeError "statsData.find is not a function") := by
  constructor
  · rfl
  · decide

/-- C3 counterexample: a failure of client construction, which happens
before the try block, escapes the handler as an exception instead of being
returned as a failure response. -/
theorem c3_counterexample :
    handler (.error "client construction failed") []
      = .error "client construction failed" := rfl

/-- C3 amended: an exception raised inside the try block of the dispatcher
is caught and turned into a response with success false and status 500,
but an exception in client construction happens before the try block and
propagates out of the handler uncaught. -/
theorem c3_amended (e : String) (tasks : List (Except String Unit)) :
    tryCatch (.error e)
        = { success := false, message := none, errorMsg := some e, status := 500 } ∧
      handler (.error e) tasks = .error e :=
  ⟨rfl, rfl⟩

/-- C6: whenever client construction succeeds and the three tasks all
settle, the handler returns the success response with status 200; per-task
failures are collected by allSettled and never change the response. -/
theorem c6_partial_failure_tolerant (t1 t2 t3 : Except String Unit) :
    handler (.ok ()) [t1, t2, t3]
      = .ok { success := true, message := some "Incremental updates processed.",
              errorMsg := none, status := 200 } := rfl

/-- C4 amended: the uploader cache task skips exactly when the event string
does not contain the text collections. followed by the configured notes
identifier; the skip is decided by substring containment, not by equality
of the parsed collection identifier, so a collection whose identifier
merely extends the notes identifier is not skipped. -/
theorem c4_amended (cfg : Config) (event : String) (ed : EventData)
    (payload : Option UploaderCache)
    (h : jsIncludes event ("collections." ++ cfg.noteId) = false) :
    updateUploaderCache cfg event ed payload = .skipped := by
  unfold updateUploaderCache
  rw [h]
  rfl

/-- Witness for C4 amended at a concrete input: a create event on a
collection unrelated to the notes collection. -/
theorem c4_amended_witness :
    updateUploaderCache cfg0 "databases.main.collections.other.documents.create"
        { userName := some "u", createdBy := none, abbreviation := some "PHY" } none
      = .skipped :=
  c4_amended cfg0 "databases.main.collections.other.documents.create"
    { userName := some "u", createdBy := none, abbreviation := some "PHY" } none (by decide)

/-- C4 counterexample: a create event on a collection whose identifier
notesx is different from the configured notes identifier is not a no-op:
the task reads, inserts and writes, because collections.notes occurs as a
substring of the event string. -/
theorem c4_counterexample :
    updateUploaderCache cfg0 "databases.main.collections.notesx.documents.create"
        { userName := some "u", createdBy := none, abbreviation := some "PHY" } none
      = .wrote [("all", ["u"]), ("PHY", ["u"])] ∧
      (splitOnDot "databases.main.collections.notesx.documents.create")[3]? = some "notesx" ∧
      "notesx" ≠ cfg0.noteId := by
  refine ⟨by decide, by decide, by decide⟩

theorem applyDelta_unmatched {cfg : Config} {col : Option String} (inc : Int) {x : StatsEntry}
    (h1 : col ≠ some cfg.noteId) (h2 : col ≠ some cfg.formId) (h3 : col ≠ some cfg.youtubeId)
    (hn : 0 ≤ x.notes) (hf : 0 ≤ x.forms) (hy : 0 ≤ x.youtube) :
    applyDelta cfg col inc x = { x with total := max 0 (x.total + inc) } := by
  unfold applyDelta clampNonneg
  simp only [if_neg h1, if_neg h2, if_neg h3]
  simp [max_eq_right hn, max_eq_right hf, max_eq_right hy]

/-- C5 amended: for a create or delete event with a truthy attribution whose
parsed collection identifier matches none of the three configured
identifiers, the teacher stats task still adds the increment to the
attributed entry alone and still writes the document back; the increment,
however, is the one the code computes from the event string (plus one when
the string contains .create anywhere, minus one otherwise), which agrees
with plus one per create and minus one per delete only when the operation
segment is the only place the text .create can occur. -/
theorem c5_amended (cfg : Config) (event : String) (ed : EventData) (doc : List StatsEntry)
    (hev : jsIncludes event ".create" = true ∨ jsIncludes event ".delete" = true)
    (hu : jsTruthy (jsOr ed.userName ed.createdBy) = true)
    (h1 : (splitOnDot event)[3]? ≠ some cfg.noteId)
    (h2 : (splitOnDot event)[3]? ≠ some cfg.formId)
    (h3 : (splitOnDot event)[3]? ≠ some cfg.youtubeId)
    (hnn : ∀ e ∈ doc, 0 ≤ e.notes ∧ 0 ≤ e.forms ∧ 0 ≤ e.youtube) :
    updateTeacherStats cfg event ed (some doc)
      = .ok (.wrote (sortDesc (updateFirst
          (fun e => e.name == (jsOr ed.userName ed.createdBy).getD "")
          (fun e => { e with total := max 0 (e.total + jsDelta event) })
          (findOrAppend ((jsOr ed.userName ed.createdBy).getD "") doc)))) := by
  have hguard : (jsIncludes event ".create" || jsIncludes event ".delete") = true := by
    rcases hev with h | h <;> simp [h]
  have hrun : updateTeacherStats cfg event ed (some doc)
      = .ok (.wrote (sortDesc (statsPreSort cfg event
          ((jsOr ed.userName ed.createdBy).getD "") doc))) := by
    unfold updateTeacherStats
    rw [hguard]
    dsimp only
    rw [hu]
    simp [getAndParseStats]
  have hpre : statsPreSort cfg event ((jsOr ed.userName ed.createdBy).getD "") doc
      = updateFirst (fun e => e.name == (jsOr ed.userName ed.createdBy).getD "")
          (fun e => { e with total := max 0 (e.total + jsDelta event) })
          (findOrAppend ((jsOr ed.userName ed.createdBy).getD "") doc) := by
    unfold statsPreSort
    refine updateFirst_congr _ (fun x hx _ => ?_)
    rcases mem_findOrAppend hx with hx | rfl
    · obtain ⟨hn, hf, hy⟩ := hnn x hx
      exact applyDelta_unmatched _ h1 h2 h3 hn hf hy
    · exact applyDelta_unmatched _ h1 h2 h3 (le_refl 0) (le_refl 0) (le_refl 0)
  rw [hrun, hpre]

/-- Witness for C5 amended at a concrete input: a create event on an
untracked collection for a fresh user produces an entry whose total alone
became one. -/
theorem c5_amended_witness :
    updateTeacherStats cfg0 "databases.main.collections.other.documents.create"
        (edFor "A") (some [])
      = .ok (.wrote [{ name := "A", notes := 0, forms := 0, youtube := 0, total := 1 }]) :=
  (c5_amended cfg0 "databases.main.collections.other.documents.create" (edFor "A") []
      (Or.inl (by decide)) (by decide) (by decide) (by decide) (by decide)
      (by simp)).trans (by decide)

/-- C5 counterexample: a delete event (operation segment delete) on the
untracked collection named creates matches none of the three identifiers,
yet the code adds plus one to the total instead of minus one, because the
event string contains the text .create inside .creates; the pre-state was
the empty document, so the claim predicts a total of zero and the code
writes a total of one. -/
theorem c5_counterexample :
    updateTeacherStats cfg0 "databases.main.collections.creates.documents.delete"
        (edFor "A") (some [])
      = .ok (.wrote [{ name := "A", notes := 0, forms := 0, youtube := 0, total := 1 }]) ∧
      (splitOnDot "databases.main.collections.creates.documents.delete")[5]? = some "delete" ∧
      "creates" ≠ cfg0.noteId ∧ "creates" ≠ cfg0.formId ∧ "creates" ≠ cfg0.youtubeId := by
  refine ⟨by decide, by decide, by decide, by decide, by decide⟩

theorem objGet_objSet_self (m : UploaderCache) (k : String) (v : List String) :
    objGet (objSet m k v) k = some v := by
  induction m with
  | nil => simp [objSet, objGet]
  | cons p ps ih =>
      by_cases h : p.1 == k
      · simp [objSet, objGet, h]
      · simp only [objSet, h, Bool.false_eq_true, if_false]
        simpa [objGet, h] using ih

theorem objGet_objSet_ne (m : UploaderCache) (k k' : String) (v : List String)
    (h : k' ≠ k) : objGet (objSet m k v) k' = objGet m k' := by
  have hk : (k == k') = false := by simpa using Ne.symm h
  induction m with
  | nil => simp [objSet, objGet, hk]
  | cons p ps ih =>
      by_cases hp : p.1 == k
      · have hp1 : p.1 = k := by simpa using hp
        simp [objSet, objGet, hp, hk, hp1]
      · by_cases hp' : p.1 == k'
        · simp [objSet, objGet, hp, hp']
        · simp only [objSet, hp, Bool.false_eq_true, if_false]
          simpa [objGet, hp'] using ih

theorem ensureKey_of_mem {m : UploaderCache} {k : String} {l : List String}
    (h : objGet m k = some l) : ensureKey m k = m := by
  unfold ensureKey
  rw [h]

theorem objGet_ensureKey_self (m : UploaderCache) (k : String) :
    ∃ l, objGet (ensureKey m k) k = some l := by
  unfold ensureKey
  split
  case h_1 l heq => exact ⟨l, heq⟩
  case h_2 => exact ⟨[], objGet_objSet_self m k []⟩

theorem objGet_ensureKey_pres (m : UploaderCache) (k k' : String)
    (h : ∃ l, objGet m k' = some l) :
    objGet (ensureKey m k) k' = objGet m k' := by
  unfold ensureKey
  split
  · rfl
  case h_2 heq =>
      obtain ⟨l, hl⟩ := h
      have hne : k' ≠ k := by
        intro e
        rw [e, heq] at hl
        cases hl
      exact objGet_objSet_ne m k k' [] hne

theorem cacheInsert_mem (m : UploaderCache) (k u : String) :
    ∃ l, objGet (cacheInsert m k u).1 k = some l ∧ u ∈ l := by
  unfold cacheInsert
  dsimp only
  cases hg : objGet m k with
  | none =>
      simp only [Option.getD_none]
      rw [if_neg (by simp)]
      exact ⟨sortAsc ([] ++ [u]), objGet_objSet_self m k _,
        mem_sortAsc.mpr (List.mem_append.mpr (Or.inr (List.mem_singleton.mpr rfl)))⟩
  | some l =>
      simp only [Option.getD_some]
      by_cases h : l.contains u = true
      · rw [if_pos h]
        exact ⟨l, hg, by simpa [List.contains] using h⟩
      · rw [if_neg h]
        exact ⟨sortAsc (l ++ [u]), objGet_objSet_self m k _,
          mem_sortAsc.mpr (List.mem_append.mpr (Or.inr (List.mem_singleton.mpr rfl)))⟩

theorem cacheInsert_pres_value (m : UploaderCache) (k k' u : String) (hk : k' ≠ k) :
    objGet (cacheInsert m k u).1 k' = objGet m k' := by
  unfold cacheInsert
  dsimp only
  split
  · rfl
  · exact objGet_objSet_ne m k k' _ hk

theorem cacheInsert_of_mem {m : UploaderCache} {k u : String} {l : List String}
    (h : objGet m k = some l) (hu : u ∈ l) : cacheInsert m k u = (m, false) := by
  unfold cacheInsert
  rw [h]
  dsimp only [Option.getD]
  rw [if_pos (by simpa [List.contains] using hu)]

theorem uploaderProcess_mem (m : UploaderCache) (u k : String) :
    (∃ l, objGet (uploaderProcess m u k).1 "all" = some l ∧ u ∈ l) ∧
      (∃ l, objGet (uploaderProcess m u k).1 k = some l ∧ u ∈ l) := by
  unfold uploaderProcess
  dsimp only
  constructor
  · by_cases hk : k = "all"
    · subst hk
      exact cacheInsert_mem _ "all" u
    · obtain ⟨l, hl, hu⟩ := cacheInsert_mem (ensureKey (ensureKey m "all") k) "all" u
      refine ⟨l, ?_, hu⟩
      rw [cacheInsert_pres_value _ k "all" u (fun e => hk e.symm)]
      exact hl
  · exact cacheInsert_mem _ k u

theorem uploaderProcess_idem (m : UploaderCache) (u k : String) :
    uploaderProcess (uploaderProcess m u k).1 u k = ((uploaderProcess m u k).1, false) := by
  obtain ⟨⟨la, hla, hua⟩, ⟨lk, hlk, huk⟩⟩ := uploaderProcess_mem m u k
  set m1 := (uploaderProcess m u k).1 with hm1
  show uploaderProcess m1 u k = (m1, false)
  simp only [uploaderProcess]
  rw [ensureKey_of_mem hla, ensureKey_of_mem hlk, cacheInsert_of_mem hla hua]
  dsimp only
  rw [cacheInsert_of_mem hlk huk]
  rfl

/-- C9: redelivering the same create event to the links cache task or the
uploader cache task, reading back the document the first delivery wrote,
produces no store write on the second delivery. -/
theorem c9_idempotent (event : String) (ed : EventData) :
    (∀ (p : Option (List String)) (d1 : List String),
        updateLinksCache event ed p = .wrote d1 →
          updateLinksCache event ed (some d1) = .noWrite) ∧
      (∀ (cfg : Config) (q : Option UploaderCache) (m1 : UploaderCache),
        updateUploaderCache cfg event ed q = .wrote m1 →
          updateUploaderCache cfg event ed (some m1) = .noWrite m1) := by
  constructor
  · intro p d1 h
    unfold updateLinksCache at h
    split at h
    next hg1 => cases h
    next hg1 =>
      split at h
      next hg2 => cases h
      next hg2 =>
        dsimp only at h
        split at h
        next hmem => cases h
        next hmem =>
          have hd1 : d1 = sortAsc (p.getD [] ++ [ed.createdBy.getD ""]) := by
            cases h
            rfl
          have hcontains : d1.contains (ed.createdBy.getD "") = true := by
            subst hd1
            simp [List.contains, mem_sortAsc]
          unfold updateLinksCache
          rw [if_neg hg1, if_neg hg2]
          dsimp only
          simp only [Option.getD_some]
          rw [if_pos hcontains]
  · intro cfg q m1 h
    unfold updateUploaderCache at h
    split at h
    next hg1 => cases h
    next hg1 =>
      split at h
      next hg2 => cases h
      next hg2 =>
        split at h
        next hg3 => cases h
        next hg3 =>
          dsimp only at h
          split at h
          next hr =>
            have hm1 : m1 = (uploaderProcess (q.getD [])
                (ed.userName.getD "") (ed.abbreviation.getD "")).1 := by
              cases h
              rfl
            unfold updateUploaderCache
            rw [if_neg hg1, if_neg hg2, if_neg hg3]
            dsimp only
            simp only [Option.getD_some]
            rw [hm1, uploaderProcess_idem]
            rfl
          next hr => cases h

/-- Witness for C9 at a concrete input: a notes create event attributed to
one user, redelivered over the documents written by the first delivery. -/
theorem c9_idempotent_witness :
    updateLinksCache "databases.main.collections.notes.documents.create"
        { userName := some "u", createdBy := some "u", abbreviation := some "PHY" }
        (some ["u"]) = .noWrite ∧
      updateUploaderCache cfg0 "databases.main.collections.notes.documents.create"
        { userName := some "u", createdBy := some "u", abbreviation := some "PHY" }
        (some [("all", ["u"]), ("PHY", ["u"])]) = .noWrite [("all", ["u"]), ("PHY", ["u"])] := by
  obtain ⟨hlinks, hup⟩ := c9_idempotent "databases.main.collections.notes.documents.create"
    { userName := some "u", createdBy := some "u", abbreviation := some "PHY" }
  exact ⟨hlinks (some []) ["u"] (by decide),
    hup cfg0 none [("all", ["u"]), ("PHY", ["u"])] (by decide)⟩

/-- C10: when the abbreviation payload field is the string all, the global
sequence and the category sequence are the same object key; from an empty
cache the task writes a single key all holding the user once, and creates
no separate category key. -/
theorem c10_all_alias (u : String) (hu : u ≠ "") :
    updateUploaderCache cfg0 "databases.main.collections.notes.documents.create"
        { userName := some u, createdBy := none, abbreviation := some "all" } none
      = .wrote [("all", [u])] := by
  have e3 : cacheInsert [("all", [])] "all" u = ([("all", [u])], true) := rfl
  have e4 : cacheInsert [("all", [u])] "all" u = ([("all", [u])], false) := by
    unfold cacheInsert
    rw [show objGet [("all", [u])] "all" = some [u] from rfl]
    simp only [Option.getD_some]
    rw [if_pos (by simp [List.contains])]
  have hproc : uploaderProcess [] u "all" = ([("all", [u])], true) := by
    simp only [uploaderProcess]
    rw [show ensureKey ([] : UploaderCache) "all" = [("all", [])] from rfl]
    rw [show ensureKey [("all", ([] : List String))] "all" = [("all", [])] from rfl]
    rw [e3]
    dsimp only
    rw [e4]
    rfl
  have hT : jsTruthy (some u) = true := by simp [jsTruthy, hu]
  unfold updateUploaderCache
  rw [if_neg (by decide :
    ¬ ((!jsIncludes "databases.main.collections.notes.documents.create"
        ("collections." ++ cfg0.noteId)) = true))]
  rw [if_neg (by decide :
    ¬ ((!jsIncludes "databases.main.collections.notes.documents.create" ".create") = true))]
  rw [if_neg (by rw [hT]; decide :
    ¬ ((!(jsTruthy (some u) && jsTruthy (some "all"))) = true))]
  dsimp only
  simp only [Option.getD_some, Option.getD_none]
  rw [hproc]
  rfl

/-- Witness for C10 at a concrete user name. -/
theorem c10_all_alias_witness :
    updateUploaderCache cfg0 "databases.main.collections.notes.documents.create"
        { userName := some "dan", createdBy := none, abbreviation := some "all" } none
      = .wrote [("all", ["dan"])] :=
  c10_all_alias "dan" (by decide)

theorem updateTeacherStats_run (cfg : Config) (event : String) (ed : EventData)
    (doc : List StatsEntry)
    (hguard : (jsIncludes event ".create" || jsIncludes event ".delete") = true)
    (ht : jsTruthy (jsOr ed.userName ed.createdBy) = true) :
    updateTeacherStats cfg event ed (some doc)
      = .ok (.wrote (sortDesc (statsPreSort cfg event
          ((jsOr ed.userName ed.createdBy).getD "") doc))) := by
  unfold updateTeacherStats
  rw [hguard]
  dsimp only
  rw [ht]
  simp [getAndParseStats]

theorem mkEvent_guard (c : Track) (o : EvOp) :
    (jsIncludes (mkEvent (c, o)) ".create" || jsIncludes (mkEvent (c, o)) ".delete") = true := by
  cases c <;> cases o <;> decide

theorem mkEvent_col (c : Track) (o : EvOp) :
    (splitOnDot (mkEvent (c, o)))[3]? = some (trackId c) := by
  cases c <;> cases o <;> decide

theorem mkEvent_jsDelta (c : Track) (o : EvOp) :
    jsDelta (mkEvent (c, o)) = opDelta o := by
  cases c <;> cases o <;> decide

theorem statsPreSort_singleton (cfg : Config) (event : String) (u : String) (a b cc t : Int) :
    statsPreSort cfg event u [{ name := u, notes := a, forms := b, youtube := cc, total := t }]
      = [applyDelta cfg ((splitOnDot event)[3]?) (jsDelta event)
          { name := u, notes := a, forms := b, youtube := cc, total := t }] := by
  unfold statsPreSort findOrAppend updateFirst
  simp

theorem applyDelta_fields (cfg : Config) (col : Option String) (inc : Int) (x : StatsEntry) :
    applyDelta cfg col inc x =
      { name := x.name,
        notes := max 0 (x.notes + if col = some cfg.noteId then inc else 0),
        forms := max 0 (x.forms + if col = some cfg.formId then inc else 0),
        youtube := max 0 (x.youtube + if col = some cfg.youtubeId then inc else 0),
        total := max 0 (x.total + inc) } := by
  unfold applyDelta clampNonneg
  split_ifs <;> simp

theorem stepStats_singleton (u : String) (hu : u ≠ "") (c : Track) (o : EvOp)
    (a b cc t : Int) :
    stepStats u (c, o) [{ name := u, notes := a, forms := b, youtube := cc, total := t }]
      = .ok [{ name := u,
               notes := max 0 (a + if c = Track.notes then opDelta o else 0),
               forms := max 0 (b + if c = Track.forms then opDelta o else 0),
               youtube := max 0 (cc + if c = Track.youtube then opDelta o else 0),
               total := max 0 (t + opDelta o) }] := by
  have hbe : (u == "") = false := by simpa using hu
  have ht : jsTruthy (jsOr (edFor u).userName (edFor u).createdBy) = true := by
    simp [edFor, jsOr, jsTruthy, hbe]
  have hju : (jsOr (edFor u).userName (edFor u).createdBy).getD "" = u := by
    simp [edFor, jsOr, jsTruthy, hbe]
  simp only [stepStats]
  rw [updateTeacherStats_run cfg0 (mkEvent (c, o)) (edFor u) _ (mkEvent_guard c o) ht]
  rw [hju, statsPreSort_singleton, applyDelta_fields, mkEvent_col, mkEvent_jsDelta]
  dsimp only
  cases c <;> simp +decide [trackId, cfg0, sortDesc, insertDesc]

theorem statsPreSort_nil_eq (cfg : Config) (event : String) (u : String) :
    statsPreSort cfg event u [] = statsPreSort cfg event u [zeroEntry u] := by
  unfold statsPreSort
  rw [show findOrAppend u [] = [zeroEntry u] from by simp [findOrAppend],
      show findOrAppend u [zeroEntry u] = [zeroEntry u] from by simp [findOrAppend, zeroEntry]]

theorem stepStats_nil_eq (u : String) (hu : u ≠ "") (e : Track × EvOp) :
    stepStats u e [] = stepStats u e [zeroEntry u] := by
  obtain ⟨c, o⟩ := e
  have hbe : (u == "") = false := by simpa using hu
  have ht : jsTruthy (jsOr (edFor u).userName (edFor u).createdBy) = true := by
    simp [edFor, jsOr, jsTruthy, hbe]
  have hju : (jsOr (edFor u).userName (edFor u).createdBy).getD "" = u := by
    simp [edFor, jsOr, jsTruthy, hbe]
  simp only [stepStats]
  rw [updateTeacherStats_run cfg0 (mkEvent (c, o)) (edFor u) [] (mkEvent_guard c o) ht,
    updateTeacherStats_run cfg0 (mkEvent (c, o)) (edFor u) [zeroEntry u] (mkEvent_guard c o) ht,
    hju, statsPreSort_nil_eq]

theorem runStats_nil_start (u : String) (hu : u ≠ "") (e : Track × EvOp)
    (es : List (Track × EvOp)) :
    runStats u (e :: es) [] = runStats u (e :: es) [zeroEntry u] := by
  simp only [runStats]
  rw [stepStats_nil_eq u hu e]

theorem catDelta_sum (evs : List (Track × EvOp)) :
    catDelta Track.notes evs + catDelta Track.forms evs + catDelta Track.youtube evs
      = (createCount evs : Int) - (deleteCount evs : Int) := by
  induction evs with
  | nil => simp [catDelta, createCount, deleteCount]
  | cons e es ih =>
      obtain ⟨c, o⟩ := e
      cases c <;> cases o <;>
        simp [catDelta, createCount, deleteCount, opDelta] <;> omega

theorem runStats_singleton (u : String) (hu : u ≠ "") (evs : List (Track × EvOp)) :
    ∀ (a b c : Int), 0 ≤ a → 0 ≤ b → 0 ≤ c →
      (∀ n, 0 ≤ a + catDelta Track.notes (evs.take n)) →
      (∀ n, 0 ≤ b + catDelta Track.forms (evs.take n)) →
      (∀ n, 0 ≤ c + catDelta Track.youtube (evs.take n)) →
      runStats u evs [{ name := u, notes := a, forms := b, youtube := c, total := a + b + c }]
        = .ok [{ name := u,
                 notes := a + catDelta Track.notes evs,
                 forms := b + catDelta Track.forms evs,
                 youtube := c + catDelta Track.youtube evs,
                 total := (a + catDelta Track.notes evs) + (b + catDelta Track.forms evs)
                   + (c + catDelta Track.youtube evs) }] := by
  induction evs with
  | nil =>
      intro a b c ha hb hc hn hf hy
      simp [runStats, catDelta]
  | cons e es ih =>
      obtain ⟨c0, o⟩ := e
      intro a b c ha hb hc hn hf hy
      have hdn : 0 ≤ a + (if c0 = Track.notes then opDelta o else 0) := by
        simpa [catDelta] using hn 1
      have hdf : 0 ≤ b + (if c0 = Track.forms then opDelta o else 0) := by
        simpa [catDelta] using hf 1
      have hdy : 0 ≤ c + (if c0 = Track.youtube then opDelta o else 0) := by
        simpa [catDelta] using hy 1
      have htot : (a + b + c) + opDelta o
          = (a + (if c0 = Track.notes then opDelta o else 0))
            + (b + (if c0 = Track.forms then opDelta o else 0))
            + (c + (if c0 = Track.youtube then opDelta o else 0)) := by
        cases c0 <;> simp <;> ring
      simp only [runStats]
      rw [stepStats_singleton u hu c0 o a b c (a + b + c)]
      rw [max_eq_right hdn, max_eq_right hdf, max_eq_right hdy, htot,
        max_eq_right (by positivity)]
      dsimp only
      rw [ih (a + (if c0 = Track.notes then opDelta o else 0))
            (b + (if c0 = Track.forms then opDelta o else 0))
            (c + (if c0 = Track.youtube then opDelta o else 0))
            hdn hdf hdy
            (fun n => by
              have := hn (n + 1)
              simp only [List.take_succ_cons, catDelta] at this
              linarith)
            (fun n => by
              have := hf (n + 1)
              simp only [List.take_succ_cons, catDelta] at this
              linarith)
            (fun n => by
              have := hy (n + 1)
              simp only [List.take_succ_cons, catDelta] at this
              linarith)]
      simp only [catDelta, Except.ok.injEq, List.cons.injEq, and_true, StatsEntry.mk.injEq,
        true_and]
      refine ⟨by ring, by ring, by ring, by ring⟩

/-- C1 amended: over a nonempty sequence of create and delete events on the
tracked collections attributed to one user, starting from an empty stats
document, the resulting entry carries the per-category signed counts and a
total equal to creates minus deletes, equal to its own clamp at zero and to
the sum of the per-category counts, provided no prefix of the sequence has,
within any single category, more deletes than creates; the code clamps
every counter at zero after each event rather than once at the end, so
without that proviso the claimed equalities fail (see the counterexample). -/
theorem c1_amended (u : String) (hu : u ≠ "") (e0 : Track × EvOp) (es : List (Track × EvOp))
    (hn : ∀ n, 0 ≤ catDelta Track.notes ((e0 :: es).take n))
    (hf : ∀ n, 0 ≤ catDelta Track.forms ((e0 :: es).take n))
    (hy : ∀ n, 0 ≤ catDelta Track.youtube ((e0 :: es).take n)) :
    runStats u (e0 :: es) []
      = .ok [{ name := u,
               notes := catDelta Track.notes (e0 :: es),
               forms := catDelta Track.forms (e0 :: es),
               youtube := catDelta Track.youtube (e0 :: es),
               total := (createCount (e0 :: es) : Int) - (deleteCount (e0 :: es) : Int) }]
    ∧ (createCount (e0 :: es) : Int) - (deleteCount (e0 :: es) : Int)
        = max 0 ((createCount (e0 :: es) : Int) - (deleteCount (e0 :: es) : Int))
    ∧ (createCount (e0 :: es) : Int) - (deleteCount (e0 :: es) : Int)
        = catDelta Track.notes (e0 :: es) + catDelta Track.forms (e0 :: es)
          + catDelta Track.youtube (e0 :: es) := by
  have hrun := runStats_singleton u hu (e0 :: es) 0 0 0 (le_refl 0) (le_refl 0) (le_refl 0)
    (fun n => by simpa using hn n) (fun n => by simpa using hf n) (fun n => by simpa using hy n)
  simp only [zero_add] at hrun
  rw [catDelta_sum (e0 :: es)] at hrun
  have hsum : 0 ≤ (createCount (e0 :: es) : Int) - (deleteCount (e0 :: es) : Int) := by
    rw [← catDelta_sum]
    have h1 := hn (e0 :: es).length
    have h2 := hf (e0 :: es).length
    have h3 := hy (e0 :: es).length
    rw [List.take_length] at h1 h2 h3
    linarith
  refine ⟨?_, (max_eq_right hsum).symm, (catDelta_sum _).symm⟩
  rw [runStats_nil_start u hu e0 es]
  simp only [zeroEntry]
  exact hrun

/-- Witness for C1 amended at a concrete input: one create on the notes
collection for user A. -/
theorem c1_amended_witness :
    runStats "A" [(Track.notes, EvOp.create)] []
      = .ok [{ name := "A", notes := 1, forms := 0, youtube := 0, total := 1 }] := by
  have h := (c1_amended "A" (by decide) (Track.notes, EvOp.create) []
    (fun n => by
      cases n with
      | zero => decide
      | succ m => rw [List.take_succ_cons, List.take_nil]; decide)
    (fun n => by
      cases n with
      | zero => decide
      | succ m => rw [List.take_succ_cons, List.take_nil]; decide)
    (fun n => by
      cases n with
      | zero => decide
      | succ m => rw [List.take_succ_cons, List.take_nil]; decide)).1
  exact h.trans (by decide)

/-- C1 counterexample: the sequence delete-then-create on the notes
collection for one user, from the empty stats document, yields an entry
with total one, while the claim predicts a total of creates minus deletes
clamped at zero, which is zero, and likewise a per-category clamped sum of
zero; the per-event clamping raised the running counters at the delete. -/
theorem c1_counterexample :
    runStats "A" [(Track.notes, EvOp.delete), (Track.notes, EvOp.create)] []
      = .ok [{ name := "A", notes := 1, forms := 0, youtube := 0, total := 1 }]
    ∧ createCount [(Track.notes, EvOp.delete), (Track.notes, EvOp.create)] = 1
    ∧ deleteCount [(Track.notes, EvOp.delete), (Track.notes, EvOp.create)] = 1
    ∧ (1 : Int) ≠ max 0 ((1 : Int) - (1 : Int)) := by
  refine ⟨by decide, by decide, by decide, by decide⟩

end IncUpdate
